import Mathlib

/-!
Verification of `build-news.mjs`, a one-shot static-site build script that
fetches content entries from a headless CMS, renders a rich-text document
model to HTML, splices listing cards into a template, and emits per-article
pages plus sitemap/RSS files.

Strings are modelled as `List Char` (abbreviated `Str`), matching JavaScript
strings viewed as character sequences; `String` literals are converted via
`.data`.  Each definition is a shallow embedding of the correspondingly
named function of the source file.
-/

abbrev Str := List Char

/-- JavaScript whitespace (the set recognised by `String.prototype.trim`):
tab, LF, VT, FF, CR, space, NBSP, and the Unicode space separators,
line/paragraph separators and BOM, identified by code point. -/
def isJsWhitespace (c : Char) : Bool :=
  c.toNat = 9 || c.toNat = 10 || c.toNat = 11 || c.toNat = 12 || c.toNat = 13 ||
  c.toNat = 32 || c.toNat = 160 || c.toNat = 0x1680 ||
  c.toNat = 0x2000 || c.toNat = 0x2001 || c.toNat = 0x2002 || c.toNat = 0x2003 ||
  c.toNat = 0x2004 || c.toNat = 0x2005 || c.toNat = 0x2006 || c.toNat = 0x2007 ||
  c.toNat = 0x2008 || c.toNat = 0x2009 || c.toNat = 0x200A ||
  c.toNat = 0x2028 || c.toNat = 0x2029 || c.toNat = 0x202F ||
  c.toNat = 0x205F || c.toNat = 0x3000 || c.toNat = 0xFEFF

/-- `s.trim()`: drop whitespace from both ends. -/
def jsTrim (s : Str) : Str :=
  ((s.dropWhile isJsWhitespace).reverse.dropWhile isJsWhitespace).reverse

/-- A character matched by the regex class `[a-z0-9]` of `slugify`, by code
point: `a`–`z` is 97–122 and `0`–`9` is 48–57. -/
def isSlugChar (c : Char) : Bool :=
  (97 ≤ c.toNat && c.toNat ≤ 122) || (48 ≤ c.toNat && c.toNat ≤ 57)

/-- `replace(/[^a-z0-9]+/g, "-")`: each maximal run of characters outside
`[a-z0-9]` becomes a single hyphen.  The flag records whether we are inside
such a run (whose hyphen has already been emitted). -/
def collapseGo (inRun : Bool) : Str → Str
  | [] => []
  | c :: cs =>
    if isSlugChar c then c :: collapseGo false cs
    else if inRun then collapseGo true cs
    else Char.ofNat 45 :: collapseGo true cs

def collapseNonAlnum (s : Str) : Str := collapseGo false s

/-- Helper for `replace(/(^-|-$)/g, "")`: remove one leading hyphen. -/
def dropLeadHyphen : Str → Str
  | c :: cs => if c = Char.ofNat 45 then cs else c :: cs
  | [] => []

/-- `replace(/(^-|-$)/g, "")`: the regex removes the hyphen anchored at the
start, if any, and the hyphen anchored at the end, if any. -/
def stripEdgeHyphens (s : Str) : Str :=
  ((dropLeadHyphen s).reverse |> dropLeadHyphen).reverse

/-- `slugify`: trim, lower-case, collapse non-alphanumeric runs to single
hyphens, strip edge hyphens.  Case mapping is modelled per character by
`Char.toLower` (the ASCII range is all that survives the `[^a-z0-9]`
replacement). -/
def slugify (s : Str) : Str :=
  stripEdgeHyphens (collapseNonAlnum ((jsTrim s).map Char.toLower))

/-- `esc` character table: the five HTML-significant characters — ampersand,
less-than, greater-than, double quote, apostrophe — map to their entities;
every other character is unchanged. -/
def escChar (c : Char) : Str :=
  if c = Char.ofNat 38 then "&amp;".data
  else if c = Char.ofNat 60 then "&lt;".data
  else if c = Char.ofNat 62 then "&gt;".data
  else if c = Char.ofNat 34 then "&quot;".data
  else if c = Char.ofNat 39 then "&#39;".data
  else [c]

/-- `esc`: the global single-character-class regex replacement of the
source, applied characterwise. -/
def esc (s : Str) : Str := (s.map escChar).flatten

/-- One HTTP response of the content API: status code plus the parsed
payload, kept opaque. -/
structure FetchResponse where
  status : Nat
  body : String

/-- `res.ok`: status in the 200–299 range. -/
def isOk (s : Nat) : Bool := 200 ≤ s && s ≤ 299

/-- Outcome of the environment-candidate loop: `success` models
`data = await res.json(); ENV_USED = envId; break`, `authError` models the
`throw` on 401/403, `exhausted` models falling off the loop with
`data === null` (followed by the `throw` naming all candidates). -/
inductive FetchOutcome where
  | success (env : String) (body : String)
  | authError
  | exhausted
deriving DecidableEq

/-- The `for (const envId of envCandidates)` loop.  `resp` gives the
response of each environment; the first component of the result is the list
of environments actually requested, in order. -/
def tryEnvs (resp : String → FetchResponse) : List String → List String × FetchOutcome
  | [] => ([], .exhausted)
  | envId :: rest =>
    let r := resp envId
    if isOk r.status then ([envId], .success envId r.body)
    else if r.status = 401 ∨ r.status = 403 then ([envId], .authError)
    else
      let p := tryEnvs resp rest
      (envId :: p.1, p.2)

/-- The `data` sub-object of a rich-text node: `data.uri` (hyperlinks) and
`data.target.sys.id` (embedded assets). -/
structure NodeData where
  uri : Option String
  targetId : Option String

/-- A rich-text node as delivered by the content API: `nodeType`, optional
`value` (text nodes), `marks` (the `type` field of each mark object),
`content` children, and the optional `data` object. -/
inductive Node where
  | mk (nodeType : String) (value : Option String) (marks : List String)
       (content : List Node) (data : Option NodeData)

def Node.nodeType : Node → String
  | .mk t _ _ _ _ => t

def Node.content : Node → List Node
  | .mk _ _ _ c _ => c

/-- One upstream asset record (`a.sys.id` together with the fields of
`a.fields` that the script reads); absent fields are `none`. -/
structure RawAsset where
  id : String
  fileUrl : Option String
  title : Option String
  description : Option String
  imgWidth : Option Nat
  imgHeight : Option Nat

/-- An entry of `assetMap`. -/
structure AssetInfo where
  url : Str
  title : String
  desc : String
  width : Option Nat
  height : Option Nat
deriving DecidableEq

/-- JavaScript `v || null` on an optional number: `0` is falsy. -/
def jsOrNull (n : Option Nat) : Option Nat :=
  match n with
  | some 0 => none
  | x => x

/-- One element of the `assetMap` construction: key `a.sys.id`, value with
`url: \x7bhttps:$\x7bfile.url || ""\x7d\x7d`, title/description defaulting to
the empty string, and width/height kept only when present (`|| null`). -/
def mkAssetEntry (a : RawAsset) : String × AssetInfo :=
  (a.id,
   { url := "https:".data ++ (a.fileUrl.getD "").data
     title := a.title.getD ""
     desc := a.description.getD ""
     width := jsOrNull a.imgWidth
     height := jsOrNull a.imgHeight })

/-- `assetMap`: the association list underlying `new Map(includes.map ...)`. -/
def assetMap (includes : List RawAsset) : List (String × AssetInfo) :=
  includes.map mkAssetEntry

/-- `Map.get`: with duplicate keys, `new Map` keeps the last pair, so later
entries shadow earlier ones. -/
def mapGet (pairs : List (String × AssetInfo)) (k : String) : Option AssetInfo :=
  match pairs with
  | [] => none
  | (k₁, v) :: rest =>
    match mapGet rest k with
    | some r => some r
    | none => if k₁ = k then some v else none

/-- One iteration of the mark loop of the text-node branch of `renderNode`:
wrap the accumulated output in the inline tag of a recognised mark. -/
def applyMark (out : Str) (m : String) : Str :=
  if m = "bold" then "<strong>".data ++ out ++ "</strong>".data
  else if m = "italic" then "<em>".data ++ out ++ "</em>".data
  else if m = "underline" then "<u>".data ++ out ++ "</u>".data
  else if m = "code" then "<code>".data ++ out ++ "</code>".data
  else out

/-- `t?.startsWith("heading-")`, on the character-list view of `t`. -/
def isHeading (t : String) : Bool := "heading-".data.isPrefixOf t.data

/-- `t.split("-")[1]` for a `t` that starts with `"heading-"`: the characters
between the first and second hyphen, i.e. after index 8 up to the next
hyphen. -/
def headingLevel (t : String) : Str :=
  (t.data.drop 8).takeWhile (fun c => !(c = Char.ofNat 45))

/-- The `width="w" height="h"` attribute pair of the embedded-asset branch:
emitted only when both dimensions are truthy (`asset.width && asset.height`). -/
def whAttrs (w h : Option Nat) : Str :=
  match w, h with
  | some w, some h =>
    if w = 0 ∨ h = 0 then []
    else " width=\"".data ++ (toString w).data ++ "\" height=\"".data ++ (toString h).data ++ "\"".data
  | _, _ => []

mutual

/-- `renderNode` of `renderRich`: dispatch on `nodeType`, in source order. -/
def renderNode (assets : List (String × AssetInfo)) : Node → Str
  | .mk t v marks content dat =>
    if t = "text" then
      marks.foldl applyMark (esc (v.getD "").data)
    else if t = "paragraph" then
      "<p>".data ++ renderNodes assets content ++ "</p>".data
    else if isHeading t then
      "<h".data ++ headingLevel t ++ ">".data ++ renderNodes assets content
        ++ "</h".data ++ headingLevel t ++ ">".data
    else if t = "unordered-list" then
      "<ul>".data ++ renderNodes assets content ++ "</ul>".data
    else if t = "ordered-list" then
      "<ol>".data ++ renderNodes assets content ++ "</ol>".data
    else if t = "list-item" then
      "<li>".data ++ renderNodes assets content ++ "</li>".data
    else if t = "blockquote" then
      "<blockquote>".data ++ renderNodes assets content ++ "</blockquote>".data
    else if t = "hr" then
      "<hr/>".data
    else if t = "hyperlink" then
      let href :=
        match dat with
        | some d =>
          match d.uri with
          | some u => if u = "" then "#".data else esc u.data
          | none => "#".data
        | none => "#".data
      "<a href=\"".data ++ href ++ "\" target=\"_blank\" rel=\"noopener\">".data
        ++ renderNodes assets content ++ "</a>".data
    else if t = "embedded-asset-block" ∨ t = "embedded-asset-inline" then
      let asset :=
        match dat.bind NodeData.targetId with
        | some id => if id = "" then none else mapGet assets id
        | none => none
      match asset with
      | none => []
      | some a =>
        if a.url = [] then []
        else
          let alt := esc (if a.title = "" then a.desc else a.title).data
          "<figure><img src=\"".data ++ a.url ++ "\" alt=\"".data ++ alt
            ++ "\" class=\"news-image\" loading=\"lazy\" decoding=\"async\"".data
            ++ whAttrs a.width a.height ++ "></figure>".data
    else
      renderNodes assets content

/-- `renderNodes`: `nodes.map(renderNode).join("")`. -/
def renderNodes (assets : List (String × AssetInfo)) : List Node → Str
  | [] => []
  | n :: ns => renderNode assets n ++ renderNodes assets ns

end

/-- `renderRich`: empty output for a missing document, otherwise the
concatenated rendering of the top-level nodes. -/
def renderRich (assets : List (String × AssetInfo)) (rt : Option Node) : Str :=
  match rt with
  | none => []
  | some n => renderNodes assets n.content

/-- The scanning pass of `splitLead`, threading the `taken` counter: a
top-level node goes to the lead while `taken < take` and its kind is
`paragraph`; every other node goes to the remainder. -/
def splitLeadGo (tk : Nat) (taken : Nat) : List Node → List Node × List Node
  | [] => ([], [])
  | n :: ns =>
    if taken < tk ∧ n.nodeType = "paragraph" then
      let p := splitLeadGo tk (taken + 1) ns
      (n :: p.1, p.2)
    else
      let p := splitLeadGo tk taken ns
      (p.1, n :: p.2)

/-- `splitLead(rt, take)`: wrap the two scanned halves of `rt?.content || []`
in fresh document nodes. -/
def splitLead (rt : Option Node) (tk : Nat) : Node × Node :=
  let c := match rt with | some n => n.content | none => []
  let (l, r) := splitLeadGo tk 0 c
  (.mk "document" none [] l none, .mk "document" none [] r none)

mutual

/-- The `walk` closure of `richToPlain`: return the buffer unchanged once it
has reached `max` characters, otherwise append the value of a text node and
walk the children. -/
def walkText (max : Nat) : Node → Str → Str
  | .mk t v _ content _, buf =>
    if max ≤ buf.length then buf
    else
      walkTextList max content (if t = "text" then buf ++ (v.getD "").data else buf)

/-- `walk` applied to an array of nodes (`n.forEach(walk)`). -/
def walkTextList (max : Nat) : List Node → Str → Str
  | [], buf => buf
  | n :: ns, buf => walkTextList max ns (walkText max n buf)

end

/-- `richToPlain(rt, max)`: accumulate text depth-first with early stop at
`max`, then `esc(buf.trim().slice(0, max))`. -/
def richToPlain (rt : Option Node) (max : Nat) : Str :=
  let buf := match rt with | some n => walkText max n [] | none => []
  esc ((jsTrim buf).take max)

mutual

/-- Full depth-first concatenation of all text-node values of a node, with
no early stop: the reference traversal the specification describes. -/
def concatText : Node → Str
  | .mk t v _ content _ =>
    (if t = "text" then (v.getD "").data else []) ++ concatTextList content

def concatTextList : List Node → Str
  | [] => []
  | n :: ns => concatText n ++ concatTextList ns

end

/-- Modelled from the spec: `toPlainText(Document, maxLen)` as the claim
reads it — the HTML-escaping of the first `maxLen` characters of the full
depth-first concatenation of text-node values. -/
def toPlainTextSpec (rt : Node) (max : Nat) : Str :=
  esc ((concatText rt).take max)

/-- The start marker of the listing placeholder region. -/
def startMarker : Str := "<!-- START:NEWS-LIST -->".data

/-- The end marker of the listing placeholder region. -/
def endMarker : Str := "<!-- END:NEWS-LIST -->".data

/-- Split a string around the first occurrence of `marker`, or `none` when
`marker` does not occur. -/
def splitFirst (marker : Str) : Str → Option (Str × Str)
  | [] => if marker = [] then some ([], []) else none
  | c :: cs =>
    if marker.isPrefixOf (c :: cs) then some ([], (c :: cs).drop marker.length)
    else
      match splitFirst marker cs with
      | some (pre, post) => some (c :: pre, post)
      | none => none

/-- The card-splicing step:
`newsTpl.replace(/(<!-- START:NEWS-LIST -->)([\s\S]*?)(<!-- END:NEWS-LIST -->)/, ...)`.
`String.prototype.replace` with a non-global regex substitutes the first
match — the first start marker followed (lazily) by the first end marker
after it — and, when the regex does not match, returns the input string
unchanged. -/
def spliceCards (tpl cards : Str) : Str :=
  match splitFirst startMarker tpl with
  | none => tpl
  | some (pre, afterStart) =>
    match splitFirst endMarker afterStart with
    | none => tpl
    | some (_, post) =>
      pre ++ startMarker ++ "\n".data ++ cards ++ "\n".data ++ endMarker ++ post

/-- Select the elements of a node list at the positions a boolean mask marks
`true`.  Used to state that `splitLead` is a positional partition. -/
def maskTrue : List Bool → List Node → List Node
  | true :: bs, x :: xs => x :: maskTrue bs xs
  | false :: bs, _ :: xs => maskTrue bs xs
  | _, _ => []

/-- Select the elements of a node list at the positions a boolean mask marks
`false`. -/
def maskFalse : List Bool → List Node → List Node
  | true :: bs, _ :: xs => maskFalse bs xs
  | false :: bs, x :: xs => x :: maskFalse bs xs
  | _, _ => []

/-- Interleave two node lists back together, drawing from the first list at
`true` positions of the mask and from the second at `false` positions. -/
def maskMerge : List Bool → List Node → List Node → List Node
  | true :: bs, x :: l, r => x :: maskMerge bs l r
  | false :: bs, l, x :: r => x :: maskMerge bs l r
  | _, _, _ => []

/-- No two consecutive characters of the string are both hyphens. -/
def NoAdjHyphens (s : Str) : Prop :=
  List.Chain' (fun a b => ¬(a = Char.ofNat 45 ∧ b = Char.ofNat 45)) s

/-- The rich-text document with text nodes `"Hello "` and `"<world>"` used
by the worked example of the specification for `toPlainText`. -/
def helloDocC2 : Node :=
  .mk "document" none []
    [.mk "paragraph" none []
      [.mk "text" (some "Hello ") [] [] none,
       .mk "text" (some "<world>") [] [] none] none] none

/-- A document whose single text node starts with a space: `richToPlain`
trims the buffer before truncating, so the leading space never reaches the
output. -/
def wsDocC2 : Node :=
  .mk "document" none [] [.mk "text" (some " a") [] [] none] none

/-! ## Theorems -/

/-- Candidates that respond with a non-success, non-authorization status are
requested and skipped, leaving the loop to continue on the remaining
candidates. -/
theorem tryEnvs_append (resp : String → FetchResponse) (pre l : List String)
    (h : ∀ x ∈ pre, isOk (resp x).status = false ∧
          (resp x).status ≠ 401 ∧ (resp x).status ≠ 403) :
    tryEnvs resp (pre ++ l) = (pre ++ (tryEnvs resp l).1, (tryEnvs resp l).2) := by
  induction pre with
  | nil => simp
  | cons e pre ih =>
    obtain ⟨hok, h401, h403⟩ := h e (by simp)
    have hrest : ∀ x ∈ pre, isOk (resp x).status = false ∧
        (resp x).status ≠ 401 ∧ (resp x).status ≠ 403 :=
      fun x hx => h x (by simp [hx])
    simp [tryEnvs, hok, h401, h403, ih hrest]

/-- C1: the claim says a template lacking the start/end placeholder markers
makes the splice fail the build; the code instead performs
`String.prototype.replace` with no match check, which returns the template
unchanged — evaluated here at a concrete marker-free template. -/
theorem spliceCards_missing_markers_silent :
    spliceCards "<html><body>x</body></html>".data "<article>c</article>".data
      = "<html><body>x</body></html>".data := by
  decide

/-- C3: when a candidate environment responds 401 or 403 (all earlier
candidates having failed with ordinary non-auth statuses), the loop throws
immediately: the requested environments are exactly the earlier ones plus
this candidate — no later candidate is ever queried — and the outcome is the
authorization error. -/
theorem tryEnvs_auth_aborts (resp : String → FetchResponse)
    (pre : List String) (e : String) (rest : List String)
    (hpre : ∀ x ∈ pre, isOk (resp x).status = false ∧
        (resp x).status ≠ 401 ∧ (resp x).status ≠ 403)
    (he : (resp e).status = 401 ∨ (resp e).status = 403) :
    tryEnvs resp (pre ++ e :: rest) = (pre ++ [e], .authError) := by
  rw [tryEnvs_append resp pre _ hpre]
  have hok : isOk (resp e).status = false := by
    rcases he with h | h <;> rw [isOk, h] <;> decide
  simp [tryEnvs, hok, he]

/-- C3 witness: candidates staging → 404, master → 401, main → 200; the
build aborts with the auth error after requesting only staging and master. -/
theorem tryEnvs_auth_aborts_witness :
    tryEnvs
      (fun x => if x = "staging" then ⟨404, ""⟩ else if x = "master" then ⟨401, ""⟩
                else ⟨200, "Q"⟩)
      ["staging", "master", "main"]
      = (["staging", "master"], .authError) :=
  tryEnvs_auth_aborts _ ["staging"] "master" ["main"] (by decide) (by decide)

/-- C6: the fetch result is taken from the first candidate whose request
succeeds with HTTP 200 (all earlier candidates having failed with non-auth,
non-success statuses), its payload is the response body of that candidate,
and no request is issued to any candidate after it. -/
theorem tryEnvs_first_success (resp : String → FetchResponse)
    (pre : List String) (e : String) (rest : List String)
    (hpre : ∀ x ∈ pre, isOk (resp x).status = false ∧
        (resp x).status ≠ 401 ∧ (resp x).status ≠ 403)
    (he : (resp e).status = 200) :
    tryEnvs resp (pre ++ e :: rest) = (pre ++ [e], .success e (resp e).body) := by
  rw [tryEnvs_append resp pre _ hpre]
  have hok : isOk (resp e).status = true := by rw [isOk, he]; decide
  simp [tryEnvs, hok]

/-- C6 witness: candidates staging → 404, master → 200, main → 200; the
payload comes from master and main is never queried. -/
theorem tryEnvs_first_success_witness :
    tryEnvs
      (fun x => if x = "staging" then ⟨404, ""⟩ else if x = "master" then ⟨200, "P"⟩
                else ⟨200, "Q"⟩)
      ["staging", "master", "main"]
      = (["staging", "master"], .success "master" "P") :=
  tryEnvs_first_success _ ["staging"] "master" ["main"] (by decide) (by decide)

/-- The lead half of the scan is the first `tk - taken` paragraph-kind nodes,
in order. -/
theorem splitLeadGo_lead (tk : Nat) (content : List Node) :
    ∀ taken : Nat,
      (splitLeadGo tk taken content).1
        = (content.filter (fun x => decide (x.nodeType = "paragraph"))).take (tk - taken) := by
  induction content with
  | nil => intro taken; simp [splitLeadGo]
  | cons n ns ih =>
    intro taken
    by_cases hp : n.nodeType = "paragraph"
    · by_cases ht : taken < tk
      · have harith : tk - taken = (tk - (taken + 1)) + 1 := by omega
        simp [splitLeadGo, hp, ht, ih (taken + 1), harith]
      · have harith : tk - taken = 0 := by omega
        simp [splitLeadGo, hp, ht, ih taken, harith]
    · simp [splitLeadGo, hp, ih taken]

/-- The scan assigns each position of the input to exactly one half: there is
a boolean mask of the same length as the input whose `true` positions carry the lead,
whose `false` positions carry the remainder, and whose re-interleaving of the
two halves restores the input exactly. -/
theorem splitLeadGo_mask (tk : Nat) (content : List Node) :
    ∀ taken : Nat,
      ∃ mask : List Bool,
        mask.length = content.length
        ∧ (splitLeadGo tk taken content).1 = maskTrue mask content
        ∧ (splitLeadGo tk taken content).2 = maskFalse mask content
        ∧ maskMerge mask (splitLeadGo tk taken content).1 (splitLeadGo tk taken content).2
            = content := by
  induction content with
  | nil => intro taken; exact ⟨[], by simp [splitLeadGo, maskTrue, maskFalse, maskMerge]⟩
  | cons n ns ih =>
    intro taken
    by_cases hc : taken < tk ∧ n.nodeType = "paragraph"
    · obtain ⟨mask, hlen, h1, h2, h3⟩ := ih (taken + 1)
      refine ⟨true :: mask, ?_, ?_, ?_, ?_⟩
      · simp [hlen]
      · simp [splitLeadGo, hc, maskTrue, h1]
      · simp [splitLeadGo, hc, maskFalse, h2]
      · simp [splitLeadGo, hc, maskMerge, h3]
    · obtain ⟨mask, hlen, h1, h2, h3⟩ := ih taken
      refine ⟨false :: mask, ?_, ?_, ?_, ?_⟩
      · simp [hlen]
      · simp [splitLeadGo, hc, maskTrue, h1]
      · simp [splitLeadGo, hc, maskFalse, h2]
      · simp [splitLeadGo, hc, maskMerge, h3]

/-- C4: `splitLead(doc, n)` is a partition of the top-level node
sequence of `doc` — the lead document carries, in order, the first
`min(n, number of paragraphs)` paragraph-kind top-level nodes, the rest
document carries every other top-level node in original relative order (the
two halves being the `true` and `false` selections of one positional mask),
and interleaving the lead back into its original positions among the rest
reconstructs exactly the original sequence. -/
theorem splitLead_partitions (doc : Node) (n : Nat) :
    (splitLead (some doc) n).1.content
        = (doc.content.filter (fun x => decide (x.nodeType = "paragraph"))).take n
    ∧ (splitLead (some doc) n).1.content.length
        = min n (doc.content.filter (fun x => decide (x.nodeType = "paragraph"))).length
    ∧ ∃ mask : List Bool,
        mask.length = doc.content.length
        ∧ (splitLead (some doc) n).1.content = maskTrue mask doc.content
        ∧ (splitLead (some doc) n).2.content = maskFalse mask doc.content
        ∧ maskMerge mask (splitLead (some doc) n).1.content (splitLead (some doc) n).2.content
            = doc.content := by
  obtain ⟨t, v, m, c, d⟩ := doc
  have hlead := splitLeadGo_lead n c 0
  rw [Nat.sub_zero] at hlead
  obtain ⟨mask, hlen, h1, h2, h3⟩ := splitLeadGo_mask n c 0
  simp only [splitLead, Node.content]
  exact ⟨hlead, by rw [hlead, List.length_take], mask, hlen, h1, h2, h3⟩

/-- A character of the slug alphabet is not a hyphen. -/
theorem isSlugChar_ne_hyphen {c : Char} (h : isSlugChar c = true) : c ≠ Char.ofNat 45 :=
  fun he => absurd (he ▸ h) (by decide)

/-- Every character emitted by the run-collapsing pass is either a slug
character kept from the input or an inserted hyphen. -/
theorem collapseGo_chars : ∀ (s : Str) (dd : Bool) (c : Char),
    c ∈ collapseGo dd s → isSlugChar c = true ∨ c = Char.ofNat 45 := by
  intro s
  induction s with
  | nil => intro dd c hc; simp [collapseGo] at hc
  | cons a s ih =>
    intro dd c hc
    by_cases ha : isSlugChar a = true
    · simp only [collapseGo, ha, if_pos] at hc
      rcases List.mem_cons.mp hc with h | h
      · exact Or.inl (h ▸ ha)
      · exact ih false c h
    · simp only [collapseGo, ha] at hc
      cases dd with
      | true => exact ih true c (by simpa using hc)
      | false =>
        rcases List.mem_cons.mp (by simpa using hc) with h | h
        · exact Or.inr h
        · exact ih true c h

/-- After a hyphen has just been emitted, the collapsing pass never emits a
hyphen first. -/
theorem collapseGo_true_head : ∀ s : Str,
    (collapseGo true s).head? ≠ some (Char.ofNat 45) := by
  intro s
  induction s with
  | nil => simp [collapseGo]
  | cons a s ih =>
    by_cases ha : isSlugChar a = true
    · simp only [collapseGo, ha, if_pos, List.head?_cons]
      intro h
      exact isSlugChar_ne_hyphen ha (by simpa using h)
    · simpa [collapseGo, ha] using ih

/-- The collapsing pass never emits two consecutive hyphens. -/
theorem collapseGo_noAdj : ∀ (s : Str) (dd : Bool), NoAdjHyphens (collapseGo dd s) := by
  intro s
  induction s with
  | nil => intro dd; simp [collapseGo, NoAdjHyphens]
  | cons a s ih =>
    intro dd
    by_cases ha : isSlugChar a = true
    · simp only [collapseGo, ha, if_pos, NoAdjHyphens]
      refine List.chain'_cons'.mpr ⟨?_, ih false⟩
      intro y _ hab
      exact isSlugChar_ne_hyphen ha hab.1
    · cases dd with
      | true => simpa [collapseGo, ha] using ih true
      | false =>
        simp only [collapseGo, ha, if_neg, Bool.false_eq_true, if_false, NoAdjHyphens]
        refine List.chain'_cons'.mpr ⟨?_, ih true⟩
        intro y hy hab
        exact collapseGo_true_head s (by rw [hy]; exact congrArg some hab.2)

/-- Slug characters and hyphens are not JavaScript whitespace. -/
theorem slugOrHyphen_not_ws {c : Char} (h : isSlugChar c = true ∨ c = Char.ofNat 45) :
    isJsWhitespace c = false := by
  rcases h with h | h
  · simp only [isSlugChar, Bool.or_eq_true, Bool.and_eq_true, decide_eq_true_eq] at h
    simp only [isJsWhitespace, Bool.or_eq_false_iff, decide_eq_false_iff_not]
    omega
  · subst h; decide

/-- `dropWhile` is the identity when no element satisfies the predicate. -/
theorem dropWhile_eq_self_of_none {p : Char → Bool} :
    ∀ s : Str, (∀ c ∈ s, p c = false) → s.dropWhile p = s := by
  intro s h
  cases s with
  | nil => rfl
  | cons a s => simp [List.dropWhile_cons, h a (by simp)]

/-- `trim` is the identity on whitespace-free strings. -/
theorem jsTrim_eq_self {s : Str} (h : ∀ c ∈ s, isJsWhitespace c = false) :
    jsTrim s = s := by
  unfold jsTrim
  rw [dropWhile_eq_self_of_none s h,
      dropWhile_eq_self_of_none s.reverse (fun c hc => h c (List.mem_reverse.mp hc)),
      List.reverse_reverse]

/-- Lower-casing fixes slug characters and hyphens. -/
theorem toLower_fix {c : Char} (h : isSlugChar c = true ∨ c = Char.ofNat 45) :
    Char.toLower c = c := by
  rcases h with h | h
  · simp only [isSlugChar, Bool.or_eq_true, Bool.and_eq_true, decide_eq_true_eq] at h
    unfold Char.toLower
    rw [if_neg]
    omega
  · subst h; decide

/-- `map Char.toLower` is the identity on strings of slug characters and
hyphens. -/
theorem map_toLower_eq_self {s : Str}
    (h : ∀ c ∈ s, isSlugChar c = true ∨ c = Char.ofNat 45) :
    s.map Char.toLower = s := by
  rw [List.map_congr_left (fun c hc => toLower_fix (h c hc))]
  exact List.map_id' s

/-- The collapsing pass is the identity on strings of slug characters and
isolated hyphens. -/
theorem collapseGo_false_eq_self :
    ∀ s : Str, (∀ c ∈ s, isSlugChar c = true ∨ c = Char.ofNat 45) →
      NoAdjHyphens s → collapseGo false s = s := by
  intro s
  induction s with
  | nil => intro _ _; rfl
  | cons a s ih =>
    intro hchars hnd
    by_cases ha : isSlugChar a = true
    · simp only [collapseGo, ha, if_pos]
      rw [ih (fun c hc => hchars c (by simp [hc])) hnd.tail]
    · have ha45 : a = Char.ofNat 45 := by
        rcases hchars a (by simp) with h | h
        · exact absurd h ha
        · exact h
      subst ha45
      simp only [collapseGo, ha, Bool.false_eq_true, if_false]
      cases s with
      | nil => rfl
      | cons d s' =>
        have hd : isSlugChar d = true := by
          rcases hchars d (by simp) with h | h
          · exact h
          · exfalso
            have := List.chain'_cons.mp hnd
            exact this.1 ⟨rfl, h⟩
        have heq : collapseGo true (d :: s') = collapseGo false (d :: s') := by
          simp [collapseGo, hd]
        rw [heq, ih (fun c hc => hchars c (by simp [hc])) hnd.tail]

/-- Dropping a leading hyphen from a string with no adjacent hyphens leaves a
string that does not start with a hyphen. -/
theorem dropLead_head_ne {s : Str} (hnd : NoAdjHyphens s) :
    (dropLeadHyphen s).head? ≠ some (Char.ofNat 45) := by
  cases s with
  | nil => simp [dropLeadHyphen]
  | cons a s =>
    by_cases ha : a = Char.ofNat 45
    · simp only [dropLeadHyphen, ha, if_pos]
      cases s with
      | nil => simp
      | cons b s' =>
        have := (List.chain'_cons.mp hnd).1
        simp only [List.head?_cons]
        intro hb
        exact this ⟨ha, by simpa using hb⟩
    · simp only [dropLeadHyphen, ha, if_false, List.head?_cons]
      intro hb
      exact ha (by simpa using hb)

/-- Dropping a leading hyphen is the identity when the string does not start
with one. -/
theorem dropLead_eq_self {s : Str} (h : s.head? ≠ some (Char.ofNat 45)) :
    dropLeadHyphen s = s := by
  cases s with
  | nil => rfl
  | cons a s =>
    have ha : ¬a = Char.ofNat 45 := fun he => h (by simp [he])
    simp [dropLeadHyphen, ha]

/-- Dropping a leading hyphen removes no other characters. -/
theorem dropLead_mem {s : Str} {c : Char} (h : c ∈ dropLeadHyphen s) : c ∈ s := by
  cases s with
  | nil => simp [dropLeadHyphen] at h
  | cons a s =>
    by_cases ha : a = Char.ofNat 45
    · simp only [dropLeadHyphen, ha, if_pos] at h
      exact List.mem_cons_of_mem _ h
    · simpa [dropLeadHyphen, ha] using h

/-- Dropping a leading hyphen preserves the absence of adjacent hyphens. -/
theorem dropLead_noAdj {s : Str} (hnd : NoAdjHyphens s) :
    NoAdjHyphens (dropLeadHyphen s) := by
  cases s with
  | nil => exact hnd
  | cons a s =>
    by_cases ha : a = Char.ofNat 45
    · simp only [dropLeadHyphen, ha, if_pos]
      exact hnd.tail
    · simpa [dropLeadHyphen, ha] using hnd

/-- Dropping a leading hyphen never exposes a trailing hyphen. -/
theorem dropLead_getLast_ne {s : Str} (h : s.getLast? ≠ some (Char.ofNat 45)) :
    (dropLeadHyphen s).getLast? ≠ some (Char.ofNat 45) := by
  cases s with
  | nil => simp [dropLeadHyphen]
  | cons a s =>
    by_cases ha : a = Char.ofNat 45
    · simp only [dropLeadHyphen, ha, if_pos]
      cases s with
      | nil => simp
      | cons b s' => simpa using h
    · simpa [dropLeadHyphen, ha] using h

/-- Absence of adjacent hyphens is preserved by reversal. -/
theorem noAdj_reverse {s : Str} (hnd : NoAdjHyphens s) : NoAdjHyphens s.reverse := by
  unfold NoAdjHyphens at hnd ⊢
  rw [List.chain'_reverse]
  exact hnd.imp (fun a b hab h => hab ⟨h.2, h.1⟩)

/-- The edge-hyphen strip of a string with no adjacent hyphens yields a string
with no leading hyphen, no trailing hyphen, still no adjacent hyphens, and no
characters beyond those of the input. -/
theorem stripEdge_shape {s : Str} (hnd : NoAdjHyphens s) :
    (stripEdgeHyphens s).head? ≠ some (Char.ofNat 45)
    ∧ (stripEdgeHyphens s).getLast? ≠ some (Char.ofNat 45)
    ∧ NoAdjHyphens (stripEdgeHyphens s)
    ∧ ∀ c ∈ stripEdgeHyphens s, c ∈ s := by
  have hs1 : NoAdjHyphens (dropLeadHyphen s) := dropLead_noAdj hnd
  have hs1h : (dropLeadHyphen s).head? ≠ some (Char.ofNat 45) := dropLead_head_ne hnd
  have hs1r : NoAdjHyphens (dropLeadHyphen s).reverse := noAdj_reverse hs1
  refine ⟨?_, ?_, ?_, ?_⟩
  · unfold stripEdgeHyphens
    rw [List.head?_reverse]
    exact dropLead_getLast_ne (by rwa [List.getLast?_reverse])
  · unfold stripEdgeHyphens
    rw [List.getLast?_reverse]
    exact dropLead_head_ne hs1r
  · exact noAdj_reverse (dropLead_noAdj hs1r)
  · intro c hc
    unfold stripEdgeHyphens at hc
    exact dropLead_mem (List.mem_reverse.mp (dropLead_mem (List.mem_reverse.mp hc)))

/-- The edge-hyphen strip is the identity when neither end is a hyphen. -/
theorem stripEdge_eq_self {s : Str} (h1 : s.head? ≠ some (Char.ofNat 45))
    (h2 : s.getLast? ≠ some (Char.ofNat 45)) : stripEdgeHyphens s = s := by
  unfold stripEdgeHyphens
  rw [dropLead_eq_self h1, dropLead_eq_self (by rwa [List.head?_reverse]),
      List.reverse_reverse]

/-- Shape invariant of the output of `slugify`: only slug characters and hyphens,
no adjacent hyphens, and no hyphen at either end. -/
theorem slugify_shape (x : Str) :
    (∀ c ∈ slugify x, isSlugChar c = true ∨ c = Char.ofNat 45)
    ∧ NoAdjHyphens (slugify x)
    ∧ (slugify x).head? ≠ some (Char.ofNat 45)
    ∧ (slugify x).getLast? ≠ some (Char.ofNat 45) := by
  have hnd : NoAdjHyphens (collapseNonAlnum ((jsTrim x).map Char.toLower)) :=
    collapseGo_noAdj _ false
  obtain ⟨hh, hl, hnd2, hmem⟩ := stripEdge_shape hnd
  exact ⟨fun c hc => collapseGo_chars _ false c (hmem c hc), hnd2, hh, hl⟩

/-- C10: every `slugify` output consists only of lowercase ASCII letters,
digits and hyphens, contains no two consecutive hyphens, and neither begins
nor ends with a hyphen. -/
theorem slugify_output_shape (x : Str) :
    (∀ c ∈ slugify x, isSlugChar c = true ∨ c = Char.ofNat 45)
    ∧ NoAdjHyphens (slugify x)
    ∧ (slugify x).head? ≠ some (Char.ofNat 45)
    ∧ (slugify x).getLast? ≠ some (Char.ofNat 45) :=
  slugify_shape x

/-- C10 witness: `slugify "Hi!"` is `"hi"`; its character `h` is a slug
character. -/
theorem slugify_output_shape_witness :
    slugify "Hi!".data = "hi".data
    ∧ (Char.ofNat 104 ∈ slugify "Hi!".data)
    ∧ (isSlugChar (Char.ofNat 104) = true ∨ Char.ofNat 104 = Char.ofNat 45) :=
  ⟨by decide, by decide, (slugify_output_shape "Hi!".data).1 (Char.ofNat 104) (by decide)⟩

/-- C5: slug derivation is idempotent — `slugify (slugify x) = slugify x` for
every string `x`. -/
theorem slugify_idempotent (x : Str) : slugify (slugify x) = slugify x := by
  obtain ⟨hchars, hnd, hhead, hlast⟩ := slugify_shape x
  have hts : jsTrim (slugify x) = slugify x :=
    jsTrim_eq_self (fun c hc => slugOrHyphen_not_ws (hchars c hc))
  have hml : (slugify x).map Char.toLower = slugify x := map_toLower_eq_self hchars
  have hcl : collapseNonAlnum (slugify x) = slugify x :=
    collapseGo_false_eq_self _ hchars hnd
  have hse : stripEdgeHyphens (slugify x) = slugify x := stripEdge_eq_self hhead hlast
  show stripEdgeHyphens (collapseNonAlnum ((jsTrim (slugify x)).map Char.toLower))
      = slugify x
  rw [hts, hml, hcl, hse]

/-- C7: a text node renders as its value with the five HTML-significant
characters escaped, wrapped by one inline tag per mark — strong for bold, em
for italic, u for underline, code for code — the marks applied in the order
they appear on the node, each wrapping the previous result cumulatively. -/
theorem renderNode_text_marks (assets : List (String × AssetInfo)) (v : String)
    (marks : List String) (m : String) (out : Str) (content : List Node)
    (dat : Option NodeData) :
    renderNode assets (.mk "text" (some v) [] content dat) = esc v.data
    ∧ renderNode assets (.mk "text" (some v) (marks ++ [m]) content dat)
        = applyMark (renderNode assets (.mk "text" (some v) marks content dat)) m
    ∧ esc v.data = (v.data.map escChar).flatten
    ∧ applyMark out "bold" = "<strong>".data ++ out ++ "</strong>".data
    ∧ applyMark out "italic" = "<em>".data ++ out ++ "</em>".data
    ∧ applyMark out "underline" = "<u>".data ++ out ++ "</u>".data
    ∧ applyMark out "code" = "<code>".data ++ out ++ "</code>".data
    ∧ escChar (Char.ofNat 38) = "&amp;".data
    ∧ escChar (Char.ofNat 60) = "&lt;".data
    ∧ escChar (Char.ofNat 62) = "&gt;".data
    ∧ escChar (Char.ofNat 34) = "&quot;".data
    ∧ escChar (Char.ofNat 39) = "&#39;".data
    ∧ ∀ c : Char, c ≠ Char.ofNat 38 → c ≠ Char.ofNat 60 → c ≠ Char.ofNat 62 →
        c ≠ Char.ofNat 34 → c ≠ Char.ofNat 39 → escChar c = [c] := by
  refine ⟨?_, ?_, rfl, ?_, ?_, ?_, ?_, by decide, by decide, by decide, by decide, by decide, ?_⟩
  · simp [renderNode]
  · simp [renderNode, List.foldl_append]
  · simp [applyMark]
  · simp [applyMark]
  · simp [applyMark]
  · simp [applyMark]
  · intro c h1 h2 h3 h4 h5
    simp [escChar, h1, h2, h3, h4, h5]

/-- C7 witness: the bold-then-italic marks on value `a<b` wrap cumulatively,
and an unremarkable character is left unescaped. -/
theorem renderNode_text_marks_witness :
    renderNode [] (.mk "text" (some "a<b") (["bold"] ++ ["italic"]) [] none)
      = applyMark (renderNode [] (.mk "text" (some "a<b") ["bold"] [] none)) "italic"
    ∧ escChar (Char.ofNat 120) = [Char.ofNat 120] :=
  ⟨(renderNode_text_marks [] "a<b" ["bold"] "italic" [] [] none).2.1,
   (renderNode_text_marks [] "a<b" [] "italic" [] [] none).2.2.2.2.2.2.2.2.2.2.2.2
     (Char.ofNat 120) (by decide) (by decide) (by decide) (by decide) (by decide)⟩

/-- Rendering a node list is rendering each node and concatenating, so it
distributes over list append. -/
theorem renderNodes_append (assets : List (String × AssetInfo)) (a b : List Node) :
    renderNodes assets (a ++ b) = renderNodes assets a ++ renderNodes assets b := by
  induction a with
  | nil => simp [renderNodes]
  | cons n ns ih => simp [renderNodes, ih]

/-- C8: an embedded-media node whose referenced identifier is not a key of
the asset index renders as the empty string, and rendering a node sequence
containing such a node is rendering of the other nodes alone — the dangling
reference never aborts rendering of the rest of the document. -/
theorem embedded_dangling_empty (assets : List (String × AssetInfo)) (t : String)
    (v : Option String) (marks : List String) (content : List Node)
    (u : Option String) (id : String) (pre post : List Node)
    (ht : t = "embedded-asset-block" ∨ t = "embedded-asset-inline")
    (hmap : mapGet assets id = none) :
    renderNode assets (.mk t v marks content (some ⟨u, some id⟩)) = []
    ∧ renderNodes assets (pre ++ .mk t v marks content (some ⟨u, some id⟩) :: post)
        = renderNodes assets pre ++ renderNodes assets post := by
  have hempty : renderNode assets (.mk t v marks content (some ⟨u, some id⟩)) = [] := by
    rcases ht with ht | ht <;> subst ht <;>
      by_cases hid : id = "" <;>
        simp [renderNode, isHeading, hid, hmap]
  refine ⟨hempty, ?_⟩
  rw [renderNodes_append]
  simp [renderNodes, hempty]

/-- C8 witness: with a one-entry asset index, an embedded-asset node
referencing the absent identifier `missing` renders as the empty string and
drops out of the rendering of the surrounding document. -/
theorem embedded_dangling_empty_witness :
    mapGet [("a1", ⟨"https://x".data, "T", "", none, none⟩)] "missing" = none
    ∧ renderNode [("a1", ⟨"https://x".data, "T", "", none, none⟩)]
        (.mk "embedded-asset-block" none [] [] (some ⟨none, some "missing"⟩)) = [] :=
  ⟨by decide,
   (embedded_dangling_empty [("a1", ⟨"https://x".data, "T", "", none, none⟩)]
      "embedded-asset-block" none [] [] none "missing" [] []
      (Or.inl rfl) (by decide)).1⟩

/-- Every association of `assetMap` comes from applying `mkAssetEntry` to
some raw asset of the includes list. -/
theorem mapGet_assetMap (includes : List RawAsset) (id : String) (a : AssetInfo)
    (h : mapGet (assetMap includes) id = some a) :
    ∃ raw ∈ includes, a = (mkAssetEntry raw).2 := by
  induction includes with
  | nil => simp [assetMap, mapGet] at h
  | cons r rest ih =>
    simp only [assetMap, List.map_cons, mapGet] at h
    cases hrec : mapGet (assetMap rest) id with
    | some b =>
      rw [show mapGet (List.map mkAssetEntry rest) id = some b from hrec] at h
      obtain ⟨raw, hraw, heq⟩ := ih (by rw [hrec]; exact congrArg some (by injection h))
      exact ⟨raw, List.mem_cons_of_mem _ hraw, heq⟩
    | none =>
      rw [show mapGet (List.map mkAssetEntry rest) id = none from hrec] at h
      by_cases hk : r.id = id
      · simp only [mkAssetEntry, hk, if_pos, Option.some.injEq] at h
        refine ⟨r, by simp, ?_⟩
        simp only [mkAssetEntry]
        exact h.symm
      · simp [mkAssetEntry, hk] at h

/-- C9: the asset index always stores `https:` followed by the raw file url
(empty when missing), so a stored url is never the empty string; hence an
embedded-media node whose (non-empty) identifier is a key of the index never
takes the unresolvable branch — it renders non-empty output. -/
theorem assetMap_url_never_empty (includes : List RawAsset) (id : String) (a : AssetInfo)
    (h : mapGet (assetMap includes) id = some a) :
    (∃ r : Str, a.url = "https:".data ++ r)
    ∧ a.url ≠ []
    ∧ ∀ t : String, (t = "embedded-asset-block" ∨ t = "embedded-asset-inline") →
        id ≠ "" →
        ∀ (v : Option String) (marks : List String) (content : List Node)
          (u : Option String),
          renderNode (assetMap includes) (.mk t v marks content (some ⟨u, some id⟩)) ≠ [] := by
  obtain ⟨raw, _, heq⟩ := mapGet_assetMap includes id a h
  have hurl : a.url = "https:".data ++ (raw.fileUrl.getD "").data := by
    rw [heq]; rfl
  have hne : a.url ≠ [] := by rw [hurl]; simp
  refine ⟨⟨(raw.fileUrl.getD "").data, hurl⟩, hne, ?_⟩
  intro t ht hid v marks content u
  rcases ht with ht | ht <;> subst ht <;>
    simp [renderNode, isHeading, hid, h, hne]

/-- C9 witness: an index entry built from a raw asset with file url
`//img/x.png` stores the non-empty url `https://img/x.png`, and an
embedded-asset node referencing it renders non-empty output. -/
theorem assetMap_url_never_empty_witness :
    mapGet (assetMap [⟨"a1", some "//img/x.png", some "T", none, some 10, some 20⟩]) "a1"
      = some (mkAssetEntry ⟨"a1", some "//img/x.png", some "T", none, some 10, some 20⟩).2
    ∧ (mkAssetEntry ⟨"a1", some "//img/x.png", some "T", none, some 10, some 20⟩).2.url ≠ []
    ∧ renderNode (assetMap [⟨"a1", some "//img/x.png", some "T", none, some 10, some 20⟩])
        (.mk "embedded-asset-block" none [] [] (some ⟨none, some "a1"⟩)) ≠ [] := by
  refine ⟨by decide, ?_, ?_⟩
  · exact (assetMap_url_never_empty [⟨"a1", some "//img/x.png", some "T", none, some 10, some 20⟩]
      "a1" (mkAssetEntry ⟨"a1", some "//img/x.png", some "T", none, some 10, some 20⟩).2
      (by decide)).2.1
  · exact (assetMap_url_never_empty [⟨"a1", some "//img/x.png", some "T", none, some 10, some 20⟩]
      "a1" (mkAssetEntry ⟨"a1", some "//img/x.png", some "T", none, some 10, some 20⟩).2
      (by decide)).2.2 "embedded-asset-block" (Or.inl rfl) (by decide) none [] [] none

/-- Once the buffer has reached `max` characters, `walk` returns it
unchanged. -/
theorem walkText_stops (max : Nat) (n : Node) (buf : Str) (h : max ≤ buf.length) :
    walkText max n buf = buf := by
  cases n with
  | mk t v m c d => simp [walkText, h]

/-- Once the buffer has reached `max` characters, walking an array of nodes
returns it unchanged. -/
theorem walkTextList_stops (max : Nat) :
    ∀ (ns : List Node) (buf : Str), max ≤ buf.length → walkTextList max ns buf = buf := by
  intro ns
  induction ns with
  | nil => intro buf _; rfl
  | cons n ns ih =>
    intro buf h
    simp only [walkTextList]
    rw [walkText_stops max n buf h, ih buf h]

mutual

/-- The walk of `richToPlain` only ever appends to the buffer a prefix of the
full text concatenation of the node, and whatever it leaves out is only left out
because the buffer already reached `max` characters. -/
theorem walkText_extends (max : Nat) : ∀ (n : Node) (buf : Str),
    ∃ t u : Str, walkText max n buf = buf ++ t ∧ t ++ u = concatText n
      ∧ (u ≠ [] → max ≤ (buf ++ t).length)
  | .mk ty v m content d, buf => by
    by_cases hb : max ≤ buf.length
    · exact ⟨[], concatText (.mk ty v m content d), by simp [walkText, hb], by simp,
        fun _ => by simpa using hb⟩
    · by_cases hty : ty = "text"
      · obtain ⟨t2, u2, h1, h2, h3⟩ :=
          walkTextList_extends max content (buf ++ (v.getD "").data)
        refine ⟨(v.getD "").data ++ t2, u2, ?_, ?_, ?_⟩
        · simp only [walkText, hb, if_neg, not_false_iff, hty, if_pos]
          rw [h1, List.append_assoc]
        · rw [List.append_assoc, h2]
          simp [concatText, hty]
        · intro hu
          have := h3 hu
          rwa [List.append_assoc] at this
      · obtain ⟨t2, u2, h1, h2, h3⟩ := walkTextList_extends max content buf
        refine ⟨t2, u2, ?_, ?_, h3⟩
        · simp only [walkText, hb, if_neg, not_false_iff, hty]
          exact h1
        · rw [h2]
          simp [concatText, hty]

/-- List form of `walkText_extends`. -/
theorem walkTextList_extends (max : Nat) : ∀ (ns : List Node) (buf : Str),
    ∃ t u : Str, walkTextList max ns buf = buf ++ t ∧ t ++ u = concatTextList ns
      ∧ (u ≠ [] → max ≤ (buf ++ t).length)
  | [], buf => ⟨[], [], by simp [walkTextList], by simp [concatTextList], by simp⟩
  | n :: ns, buf => by
    obtain ⟨t1, u1, h1, h2, h3⟩ := walkText_extends max n buf
    by_cases hu : u1 = []
    · obtain ⟨t2, u2, g1, g2, g3⟩ := walkTextList_extends max ns (buf ++ t1)
      subst hu
      rw [List.append_nil] at h2
      refine ⟨t1 ++ t2, u2, ?_, ?_, ?_⟩
      · simp only [walkTextList]
        rw [h1, g1, List.append_assoc]
      · rw [List.append_assoc, g2]
        simp [concatTextList, h2]
      · intro hu2
        rw [← List.append_assoc]
        exact g3 hu2
    · have hlen := h3 hu
      refine ⟨t1, u1 ++ concatTextList ns, ?_, ?_, fun _ => hlen⟩
      · simp only [walkTextList]
        rw [h1, walkTextList_stops max ns _ hlen]
      · rw [← List.append_assoc, h2]
        simp [concatTextList]

end

/-- C2 counterexample: for the document whose single text node is `" a"` and
`maxLen = 1`, `richToPlain` trims the buffer before truncating and returns
`"a"`, while the claimed formula — escape of the first `maxLen` characters of
the depth-first concatenation — yields `" "`. -/
theorem richToPlain_trim_counterexample :
    richToPlain (some wsDocC2) 1 ≠ toPlainTextSpec wsDocC2 1 := by
  decide

/-- C2 amended: `richToPlain` returns the HTML-escaping of the first `maxLen`
characters of the whitespace-trimmed walk buffer (the walk stopping early
once the buffer reaches `maxLen`); whenever that buffer carries no leading or
trailing whitespace, this equals the HTML-escaping of the first `maxLen`
characters of the full depth-first concatenation of text-node values. -/
theorem richToPlain_amended (rt : Node) (max : Nat)
    (htrim : jsTrim (walkText max rt []) = walkText max rt []) :
    richToPlain (some rt) max = toPlainTextSpec rt max := by
  obtain ⟨t, u, h1, h2, h3⟩ := walkText_extends max rt []
  rw [List.nil_append] at h1
  show esc ((jsTrim (walkText max rt [])).take max) = esc ((concatText rt).take max)
  rw [htrim, h1]
  by_cases hu : u = []
  · subst hu
    rw [List.append_nil] at h2
    rw [h2]
  · have hlen : max ≤ t.length := by
      have := h3 hu
      rwa [List.nil_append] at this
    rw [← h2, List.take_append_eq_append_take]
    have h0 : max - t.length = 0 := by omega
    rw [h0]
    simp

/-- C2 witness: for text nodes `"Hello "` and `"<world>"` with `maxLen = 8`
the buffer `"Hello <world>"` is trim-invariant and the output is
`"Hello &lt;w"`, matching the concrete example of the claim. -/
theorem richToPlain_amended_witness :
    jsTrim (walkText 8 helloDocC2 []) = walkText 8 helloDocC2 []
    ∧ richToPlain (some helloDocC2) 8 = "Hello &lt;w".data :=
  ⟨by decide, (richToPlain_amended helloDocC2 8 (by decide)).trans (by decide)⟩


